import Mathlib

/-!
Verification of `scripts/dev/audit_plans.py`, a single-pass reporting
utility that scans a directory tree of markdown planning documents for
task-checkbox lines and prints per-file completion statistics.

The Python source is shallowly embedded below:
* lines of text are `List Char`;
* the anchored regex `^\s*[-*]\s*\[( |x|~)\]\s*(.*)$` (compiled with
  `re.IGNORECASE`) is embedded as the deterministic matcher `pat_match`
  (the pattern has no backtracking ambiguity: each `\s*` is followed by a
  non-whitespace literal, so maximal-munch is the unique parse);
* the per-document counting loop is `scanFrom` / `scanDoc`;
* the printing phase is `renderReport`, producing structured output lines;
* the float expression `(done / total) * 100.0` rendered with `:.0f`
  (round-half-to-even) is modelled exactly over the rationals by the
  integer-arithmetic function `fmtPct`;
* directory discovery (`rglob("*.md")`, `is_file`, the `readme.md`
  exclusion, and `sorted(..., key=as_posix)`) is `discover` over an
  abstract filesystem listing.
-/

/-- The characters matched by Python's regex class `\s` (ASCII range) and
stripped by `str.strip()`. -/
def isPySpace (c : Char) : Bool :=
  c == ' ' || c == '\t' || c == '\n' || c == '\r' || c == '\x0b' || c == '\x0c'

/-- Consume a maximal run of whitespace: the action of a greedy `\s*`
that is followed by a non-whitespace literal in the pattern. -/
def dropSpaces (l : List Char) : List Char :=
  l.dropWhile isPySpace

/-- Python `str.strip()`: remove leading and trailing whitespace. -/
def stripChars (l : List Char) : List Char :=
  (((l.dropWhile isPySpace).reverse).dropWhile isPySpace).reverse

/-- `pat.match(line)` for `pat = re.compile(r"^\s*[-*]\s*\[( |x|~)\]\s*(.*)$",
re.IGNORECASE)`.  Returns `some (group1, group2)` on a match: `group1` is the
single state character (IGNORECASE lets `x` also match `X`; `-`, `*`, ` `
and `~` have no case), `group2` is the trailing text after the greedy `\s*`
following `]`. -/
def pat_match (line : List Char) : Option (Char × List Char) :=
  match dropSpaces line with
  | [] => none
  | c :: rest =>
    if c == '-' || c == '*' then
      match dropSpaces rest with
      | '[' :: s :: ']' :: rest2 =>
        if s == ' ' || s == 'x' || s == 'X' || s == '~' then
          some (s, dropSpaces rest2)
        else none
      | _ => none
    else none

/-- The three checkbox states of the data model. -/
inductive CheckState where
  | isDone
  | inProgress
  | unchecked
deriving DecidableEq, Repr

/-- The branch on `state = m.group(1).lower()` in `main`:
`if state == "x": done += 1 elif state == "~": impl += 1 else: unchecked`. -/
def classify (s : Char) : CheckState :=
  let state := s.toLower
  if state == 'x' then .isDone
  else if state == '~' then .inProgress
  else .unchecked

/-- Per-document aggregate produced by the counting loop: `total`, `done`,
`impl` (in-progress) counters and the `unchecked` list of
`(line number, stripped description)` pairs, in encounter order. -/
structure DocumentReport where
  total : Nat
  done : Nat
  impl : Nat
  unchecked : List (Nat × List Char)
deriving DecidableEq, Repr

/-- One iteration of the loop body for line number `i`:
skip non-matching lines; otherwise increment `total` and exactly one of
the three buckets, appending `(i, m.group(2).strip())` for unchecked. -/
def stepLine (r : DocumentReport) (i : Nat) (line : List Char) : DocumentReport :=
  match pat_match line with
  | none => r
  | some (s, txt) =>
    match classify s with
    | .isDone => { r with total := r.total + 1, done := r.done + 1 }
    | .inProgress => { r with total := r.total + 1, impl := r.impl + 1 }
    | .unchecked =>
        { r with total := r.total + 1,
                 unchecked := r.unchecked ++ [(i, stripChars txt)] }

/-- The loop `for i, line in enumerate(..., start=1)` starting at line
number `n` with accumulated report `r`. -/
def scanFrom (n : Nat) (r : DocumentReport) : List (List Char) → DocumentReport
  | [] => r
  | l :: ls => scanFrom (n + 1) (stepLine r n l) ls

/-- Scan a whole document (its list of lines, as produced by
`splitlines()`), with counters starting at zero and line numbers at 1. -/
def scanDoc (lines : List (List Char)) : DocumentReport :=
  scanFrom 1 ⟨0, 0, 0, []⟩ lines

/-- `f"{(done / total) * 100.0:.0f}"` as an integer: the exact rational
`100 * done / total` rounded to the nearest integer, ties to even
(Python's float formatting rounds half to even; the float value is
modelled as the exact rational). -/
def fmtPct (dn total : Nat) : Nat :=
  let n := 100 * dn
  let q := n / total
  let r := n % total
  if 2 * r < total then q
  else if total < 2 * r then q + 1
  else if q % 2 == 0 then q else q + 1

/-- One line of console output, structured by which `print` emitted it. -/
inductive OutLine where
  | noTasks (path : List Char)
  | summary (path : List Char) (dn impl total pct : Nat)
  | preview (lineNo : Nat) (txt : List Char)
  | overflow (count : Nat)
deriving DecidableEq, Repr

/-- The printing phase for one document (source lines 39-48): the
`no task checkboxes` notice when `total == 0`; otherwise the summary line,
the first 5 unchecked entries with text truncated to 120 characters
(`txt[:120]`), and the `... N more unchecked` overflow line when more than
5 unchecked entries exist. -/
def renderReport (path : List Char) (r : DocumentReport) : List OutLine :=
  if r.total == 0 then [.noTasks path]
  else
    [.summary path r.done r.impl r.total (fmtPct r.done r.total)]
      ++ (r.unchecked.take 5).map (fun e => .preview e.1 (e.2.take 120))
      ++ (if r.unchecked.length > 5 then [.overflow (r.unchecked.length - 5)] else [])

/-- An entry of the filesystem listing below the root `docs/plans`, as
enumerated by `root.rglob("*.md")`'s underlying walk: its path components
relative to the root, whether it is a regular file, and its text content
split into lines. -/
structure FsEntry where
  parts : List (List Char)
  isFile : Bool
  content : List (List Char)
deriving DecidableEq, Repr

/-- `p.name`: the final path component. -/
def FsEntry.name (e : FsEntry) : List Char :=
  e.parts.getLastD []

/-- `fnmatch` of the name against the glob `*.md`: an arbitrary (possibly
empty) prefix followed by the literal suffix `.md`. -/
def endsMd (name : List Char) : Bool :=
  match name.reverse with
  | 'd' :: 'm' :: '.' :: _ => true
  | _ => false

/-- `p.as_posix()`: slash-joined path, rooted at `docs/plans`. -/
def asPosix (e : FsEntry) : List Char :=
  (['d','o','c','s'] :: ['p','l','a','n','s'] :: e.parts).foldr
    (fun part acc => if acc.isEmpty then part else part ++ '/' :: acc) []

/-- Python string `<=`: lexicographic comparison by code point. -/
def lexLe : List Char → List Char → Bool
  | [], _ => true
  | _ :: _, [] => false
  | a :: as, b :: bs =>
    if a.toNat < b.toNat then true
    else if b.toNat < a.toNat then false
    else lexLe as bs

/-- The filter on `p.name.lower() != "readme.md"`. -/
def notReadme (e : FsEntry) : Bool :=
  e.name.map Char.toLower ≠ ['r','e','a','d','m','e','.','m','d']

/-- Discovery (source lines 13-17 and 20): keep the regular files whose
name matches `*.md` and is not `readme.md` case-insensitively, sorted by
posix path string. -/
def discover (fs : List FsEntry) : List FsEntry :=
  (fs.filter fun e => e.isFile && endsMd e.name && notReadme e).mergeSort
    (fun a b => lexLe (asPosix a) (asPosix b))

/-- The whole program: discover documents, scan and render each in order,
and `return 0` as the exit status. -/
def runMain (fs : List FsEntry) : List OutLine × Nat :=
  (((discover fs).map fun e => renderReport (asPosix e) (scanDoc e.content)).flatten, 0)

example : pat_match "- [x] a".data = some ('x', ['a']) := by decide
example : pat_match "- [z] text".data = none := by decide
example : pat_match "- [ ]b".data = some (' ', ['b']) := by decide
example : pat_match "  * [~]   done soon  ".data
    = some ('~', ['d','o','n','e',' ','s','o','o','n',' ',' ']) := by decide
example : pat_match "not a task".data = none := by decide
example : scanDoc ["- [x] a".data, "- [ ] b".data, "- [~] c".data, "not a task".data]
    = ⟨3, 1, 1, [(2, ['b'])]⟩ := by decide
example : fmtPct 1 3 = 33 := by decide
example : fmtPct 2 3 = 67 := by decide
example : fmtPct 1 8 = 12 := by decide
example : fmtPct 3 8 = 38 := by decide

/-! ### Helper lemmas -/

/-- The counting invariant: every counted line sits in exactly one bucket. -/
def reportInv (r : DocumentReport) : Prop :=
  r.done + r.impl + r.unchecked.length = r.total

theorem stepLine_inv (r : DocumentReport) (i : Nat) (line : List Char)
    (h : reportInv r) : reportInv (stepLine r i line) := by
  unfold stepLine
  cases hm : pat_match line with
  | none => exact h
  | some p =>
    obtain ⟨s, txt⟩ := p
    cases hc : classify s <;> simp only [hc] <;>
      simp only [reportInv, List.length_append, List.length_cons,
        List.length_nil] at h ⊢ <;> omega

theorem scanFrom_inv (lines : List (List Char)) :
    ∀ n r, reportInv r → reportInv (scanFrom n r lines) := by
  induction lines with
  | nil => exact fun _ _ h => h
  | cons l ls ih => exact fun n r h => ih (n + 1) _ (stepLine_inv r n l h)

/-- A successful match constrains the captured state character to the
regex alternation `( |x|~)` under `IGNORECASE`. -/
theorem pat_match_state {line : List Char} {s : Char} {txt : List Char}
    (h : pat_match line = some (s, txt)) :
    s = ' ' ∨ s = 'x' ∨ s = 'X' ∨ s = '~' := by
  unfold pat_match at h
  split at h
  · exact absurd h (by simp)
  · split at h
    · split at h
      · split at h
        · rename_i hs
          obtain ⟨hs1, -⟩ := Prod.mk.injEq .. ▸ (Option.some.inj h)
          subst hs1
          simp at hs
          tauto
        · exact absurd h (by simp)
      · exact absurd h (by simp)
    · exact absurd h (by simp)

/-! ### C1 -/

/-- C1: for every document, the resulting report satisfies
`done + impl + len(unchecked) = total`: every line counted toward `total`
is classified into exactly one of the three states. -/
theorem c1_report_invariant (lines : List (List Char)) :
    (scanDoc lines).done + (scanDoc lines).impl
      + (scanDoc lines).unchecked.length = (scanDoc lines).total :=
  scanFrom_inv lines 1 ⟨0, 0, 0, []⟩ rfl

/-! ### C7 -/

/-- C7: state-character matching is case-insensitive: a line with `[X]`
and the same line with `[x]` are both matched and both counted as done,
for any trailing text. -/
theorem c7_case_insensitive (t : List Char) :
    pat_match (['-', ' ', '[', 'X', ']', ' '] ++ t) = some ('X', dropSpaces t) ∧
    pat_match (['-', ' ', '[', 'x', ']', ' '] ++ t) = some ('x', dropSpaces t) ∧
    classify 'X' = classify 'x' ∧
    (scanDoc [['-', ' ', '[', 'X', ']', ' '] ++ t]).done = 1 ∧
    (scanDoc [['-', ' ', '[', 'x', ']', ' '] ++ t]).done = 1 := by
  have hX : pat_match (['-', ' ', '[', 'X', ']', ' '] ++ t)
      = some ('X', dropSpaces t) := by
    simp [pat_match, dropSpaces, List.dropWhile, isPySpace]
  have hx : pat_match (['-', ' ', '[', 'x', ']', ' '] ++ t)
      = some ('x', dropSpaces t) := by
    simp [pat_match, dropSpaces, List.dropWhile, isPySpace]
  refine ⟨hX, hx, rfl, ?_, ?_⟩ <;>
    · simp only [List.cons_append, List.nil_append] at hX hx
      simp [scanDoc, scanFrom, stepLine, hX, hx, classify]

/-! ### C2 -/

/-- C2 as stated is false: a state character outside `( |x|~)` does not
match the pattern at all, so `- [z] text` is excluded from every count
rather than counted as an unchecked task line. -/
theorem c2_counterexample :
    pat_match ("- [z] text".data) = none ∧
    (scanDoc ["- [z] text".data]).total = 0 ∧
    (scanDoc ["- [z] text".data]).unchecked = [] := by decide

/-- C2 amended: for every matched task-checkbox line the single state
character is one of space, `x`, `X`, `~`, and classification is determined
solely by it, case-insensitively: `x`/`X` yield done, `~` yields
in-progress, and the space yields unchecked; any other bracket character
(such as `z`) fails the match entirely. -/
theorem c2_state_classification (line : List Char) (s : Char) (txt : List Char)
    (h : pat_match line = some (s, txt)) :
    (s = ' ' ∨ s = 'x' ∨ s = 'X' ∨ s = '~') ∧
    (s.toLower = 'x' → classify s = .isDone) ∧
    (s = '~' → classify s = .inProgress) ∧
    (s = ' ' → classify s = .unchecked) := by
  refine ⟨pat_match_state h, ?_, ?_, ?_⟩
  · intro hs; simp [classify, hs]
  · intro hs; subst hs; decide
  · intro hs; subst hs; decide

/-- Concrete instance of `c2_state_classification` at the line `- [x] a`. -/
theorem c2_state_classification_witness :
    (('x' : Char) = ' ' ∨ ('x' : Char) = 'x' ∨ ('x' : Char) = 'X'
        ∨ ('x' : Char) = '~') ∧
    (Char.toLower 'x' = 'x' → classify 'x' = .isDone) ∧
    (('x' : Char) = '~' → classify 'x' = .inProgress) ∧
    (('x' : Char) = ' ' → classify 'x' = .unchecked) :=
  c2_state_classification ("- [x] a".data) 'x' ['a'] (by decide)

/-! ### C3 -/

theorem dropSpaces_append_of_space (w l : List Char)
    (hw : ∀ c ∈ w, isPySpace c = true) :
    dropSpaces (w ++ l) = dropSpaces l := by
  induction w with
  | nil => rfl
  | cons c w ih =>
    rw [List.cons_append, dropSpaces, List.dropWhile_cons_of_pos (hw c (by simp))]
    exact ih fun d hd => hw d (List.mem_cons_of_mem _ hd)

theorem dropSpaces_cons_of_not (c : Char) (l : List Char)
    (hc : isPySpace c = false) : dropSpaces (c :: l) = c :: l := by
  simp [dropSpaces, List.dropWhile_cons, hc]

/-- A successful match dissected: the unique maximal-munch parse of the
pattern. -/
theorem pat_match_some {line : List Char} {s : Char} {txt : List Char}
    (h : pat_match line = some (s, txt)) :
    ∃ c rest rest2,
      dropSpaces line = c :: rest ∧ (c = '-' ∨ c = '*') ∧
      dropSpaces rest = '[' :: s :: ']' :: rest2 ∧
      (s = ' ' ∨ s = 'x' ∨ s = 'X' ∨ s = '~') ∧ txt = dropSpaces rest2 := by
  unfold pat_match at h
  split at h
  · exact absurd h (by simp)
  · rename_i c rest hd
    split at h
    · rename_i hcm
      split at h
      · rename_i l2 s2 rest2 hrest
        split at h
        · rename_i hs
          have hp := Option.some.inj h
          obtain ⟨rfl, rfl⟩ : s2 = s ∧ dropSpaces rest2 = txt :=
            ⟨congrArg Prod.fst hp, congrArg Prod.snd hp⟩
          refine ⟨c, rest, rest2, hd, ?_, hrest, ?_, rfl⟩
          · simp at hcm; tauto
          · simp at hs; tauto
        · exact absurd h (by simp)
      · exact absurd h (by simp)
    · exact absurd h (by simp)

/-- The shape of a matching line, written out: leading whitespace, a list
marker, a (possibly empty) run of whitespace, a bracketed state character
drawn from space, `x`, `X`, `~`, a (possibly empty) run of whitespace, and
arbitrary trailing text. -/
def taskLineShape (line : List Char) : Prop :=
  ∃ w1 m w2 s w3 t,
    line = w1 ++ m :: (w2 ++ '[' :: s :: ']' :: (w3 ++ t)) ∧
    (∀ c ∈ w1, isPySpace c = true) ∧
    (m = '-' ∨ m = '*') ∧
    (∀ c ∈ w2, isPySpace c = true) ∧
    (s = ' ' ∨ s = 'x' ∨ s = 'X' ∨ s = '~') ∧
    (∀ c ∈ w3, isPySpace c = true)

/-- C3 as stated is false: the pattern allows zero or more whitespace
characters after the closing bracket (and after the list marker), not
exactly one space, so `- [ ]b` is matched and counted rather than
excluded from all counts. -/
theorem c3_counterexample :
    pat_match ("- [ ]b".data) = some (' ', "b".data) ∧
    (scanDoc ["- [ ]b".data]).total = 1 ∧
    (scanDoc ["- [ ]b".data]).unchecked = [(1, "b".data)] ∧
    pat_match ("-[x] a".data) = some ('x', "a".data) := by decide

/-- C3 amended: a line is counted as a task-checkbox line if and only if,
after leading whitespace, it has a list marker (`-` or `*`), zero or more
whitespace characters, an opening bracket, exactly one state character
among space, `x`, `X`, `~`, a closing bracket, zero or more whitespace
characters, then arbitrary trailing text; in particular a checkbox with no
space after `]` (e.g. `- [ ]b`) is still counted. -/
theorem c3_line_match_characterization (line : List Char) :
    (pat_match line).isSome = true ↔ taskLineShape line := by
  constructor
  · intro h
    obtain ⟨⟨s, txt⟩, hm⟩ := Option.isSome_iff_exists.mp h
    obtain ⟨c, rest, rest2, hd, hc, hrest, hs, -⟩ := pat_match_some hm
    have h1 := List.takeWhile_append_dropWhile isPySpace line
    have h2 := List.takeWhile_append_dropWhile isPySpace rest
    unfold dropSpaces at hd hrest
    rw [hd] at h1
    rw [hrest] at h2
    refine ⟨line.takeWhile isPySpace, c, rest.takeWhile isPySpace,
      s, [], rest2, ?_, fun d hd => List.mem_takeWhile_imp hd, hc,
      fun d hd => List.mem_takeWhile_imp hd, hs, by simp⟩
    rw [List.nil_append, h2]
    exact h1.symm
  · rintro ⟨w1, m, w2, s, w3, t, rfl, hw1, hm, hw2, hs, hw3⟩
    have hmns : isPySpace m = false := by rcases hm with rfl | rfl <;> decide
    have h1 : dropSpaces (w1 ++ m :: (w2 ++ '[' :: s :: ']' :: (w3 ++ t)))
        = m :: (w2 ++ '[' :: s :: ']' :: (w3 ++ t)) := by
      rw [dropSpaces_append_of_space w1 _ hw1, dropSpaces_cons_of_not _ _ hmns]
    have h2 : dropSpaces (w2 ++ '[' :: s :: ']' :: (w3 ++ t))
        = '[' :: s :: ']' :: (w3 ++ t) := by
      rw [dropSpaces_append_of_space w2 _ hw2,
        dropSpaces_cons_of_not _ _ (by decide)]
    unfold pat_match
    rw [h1]
    rcases hm with rfl | rfl <;> rcases hs with rfl | rfl | rfl | rfl <;>
      simp [h2]

/-! ### C5 -/

/-- C5: with zero total the reporter emits only the no-task-checkboxes
line; otherwise the first emitted line is the summary whose percentage is
`done / total * 100` rendered with zero decimal places, computed only in
the branch where `total` is nonzero (so the divisor is never zero there);
1 done of 3 total renders as 33 and 2 of 3 as 67. -/
theorem c5_reporter (path : List Char) (r : DocumentReport) :
    (r.total = 0 → renderReport path r = [.noTasks path]) ∧
    (0 < r.total →
      (renderReport path r).head? =
        some (.summary path r.done r.impl r.total (fmtPct r.done r.total))) ∧
    fmtPct 1 3 = 33 ∧ fmtPct 2 3 = 67 := by
  refine ⟨fun h0 => ?_, fun hpos => ?_, by decide, by decide⟩
  · simp [renderReport, h0]
  · have : (r.total == 0) = false := by simp; omega
    simp [renderReport, this]

/-- Concrete instance of `c5_reporter`: an empty report and the report of
the spec's worked example (1 done, 1 in-progress, 1 unchecked of 3). -/
theorem c5_reporter_witness :
    renderReport [] ⟨0, 0, 0, []⟩ = [.noTasks []] ∧
    (renderReport [] ⟨3, 1, 1, [(2, ['b'])]⟩).head? =
      some (.summary [] 1 1 3 (fmtPct 1 3)) :=
  ⟨(c5_reporter [] ⟨0, 0, 0, []⟩).1 rfl,
   (c5_reporter [] ⟨3, 1, 1, [(2, ['b'])]⟩).2.1 (by decide)⟩

/-! ### C6 -/

/-- Recognizer for preview output lines. -/
def isPreview : OutLine → Bool
  | .preview _ _ => true
  | _ => false

/-- C6: for a document with tasks, the preview lines are exactly the first
5 unchecked entries (so never more than 5), and an overflow line appears
if and only if more than 5 unchecked entries exist, reporting
`len(unchecked) - 5`. -/
theorem c6_preview_cap (path : List Char) (r : DocumentReport)
    (hpos : 0 < r.total) :
    ((renderReport path r).filter isPreview
        = (r.unchecked.take 5).map fun e => .preview e.1 (e.2.take 120)) ∧
    ((renderReport path r).countP isPreview = min r.unchecked.length 5) ∧
    (∀ n, OutLine.overflow n ∈ renderReport path r ↔
        5 < r.unchecked.length ∧ n = r.unchecked.length - 5) := by
  have ht : (r.total == 0) = false := by simp; omega
  refine ⟨?_, ?_, fun n => ?_⟩
  · simp only [renderReport, ht, Bool.false_eq_true, if_false,
      List.filter_append]
    rw [List.filter_map]
    have h1 : (List.filter isPreview [OutLine.summary path r.done r.impl
        r.total (fmtPct r.done r.total)]) = [] := rfl
    have h2 : (isPreview ∘ fun e : Nat × List Char =>
        OutLine.preview e.1 (e.2.take 120)) = fun _ => true := rfl
    rw [h1, h2, List.filter_true, List.nil_append]
    split <;> simp [isPreview]
  · simp only [renderReport, ht, Bool.false_eq_true, if_false,
      List.countP_append]
    rw [List.countP_map]
    have h1 : List.countP isPreview [OutLine.summary path r.done r.impl
        r.total (fmtPct r.done r.total)] = 0 := rfl
    have h2 : (isPreview ∘ fun e : Nat × List Char =>
        OutLine.preview e.1 (e.2.take 120)) = fun _ => true := rfl
    rw [h1, h2, List.countP_true, List.length_take]
    split <;> simp [isPreview] <;> omega
  · simp only [renderReport, ht, Bool.false_eq_true, if_false,
      List.mem_append, List.mem_singleton, List.mem_map]
    constructor
    · rintro ((h | ⟨e, -, h⟩) | h)
      · exact absurd h (by simp)
      · exact absurd h (by simp)
      · split at h
        · rename_i hlen
          simp at h
          exact ⟨hlen, h⟩
        · exact absurd h (by simp)
    · rintro ⟨hlen, rfl⟩
      right
      split
      · simp
      · omega

/-- Concrete instance of `c6_preview_cap` at a report with exactly 6
unchecked entries: 5 preview lines and an overflow line reporting 1. -/
theorem c6_preview_cap_witness :
    ((renderReport [] ⟨6, 0, 0,
        [(1, ['a']), (2, ['b']), (3, ['c']), (4, ['d']), (5, ['e']),
         (6, ['f'])]⟩).countP isPreview = 5) ∧
    OutLine.overflow 1 ∈ renderReport [] ⟨6, 0, 0,
        [(1, ['a']), (2, ['b']), (3, ['c']), (4, ['d']), (5, ['e']),
         (6, ['f'])]⟩ := by
  have h := c6_preview_cap [] ⟨6, 0, 0,
    [(1, ['a']), (2, ['b']), (3, ['c']), (4, ['d']), (5, ['e']),
     (6, ['f'])]⟩ (by decide)
  exact ⟨h.2.1, (h.2.2 1).mpr (by decide)⟩

/-! ### C9 -/

/-- The unchecked entries contributed by scanning a list of lines whose
first line has line number `n`. -/
def entriesFrom (n : Nat) : List (List Char) → List (Nat × List Char)
  | [] => []
  | l :: ls =>
    match pat_match l with
    | none => entriesFrom (n + 1) ls
    | some (s, txt) =>
      match classify s with
      | .unchecked => (n, stripChars txt) :: entriesFrom (n + 1) ls
      | _ => entriesFrom (n + 1) ls

theorem entriesFrom_cons (n : Nat) (l : List Char) (ls : List (List Char)) :
    entriesFrom n (l :: ls) =
      match pat_match l with
      | none => entriesFrom (n + 1) ls
      | some (s, txt) =>
        match classify s with
        | .unchecked => (n, stripChars txt) :: entriesFrom (n + 1) ls
        | _ => entriesFrom (n + 1) ls := rfl

theorem scanFrom_unchecked (ls : List (List Char)) :
    ∀ n r, (scanFrom n r ls).unchecked = r.unchecked ++ entriesFrom n ls := by
  induction ls with
  | nil => intro n r; simp [scanFrom, entriesFrom]
  | cons l ls ih =>
    intro n r
    rw [scanFrom, ih, entriesFrom_cons]
    unfold stepLine
    cases hm : pat_match l with
    | none => rfl
    | some p =>
      obtain ⟨s, txt⟩ := p
      cases hc : classify s <;> simp [hc]

theorem entriesFrom_lineNo (ls : List (List Char)) :
    ∀ n, ∀ e ∈ entriesFrom n ls, n ≤ e.1 := by
  induction ls with
  | nil => intro n e he; simp [entriesFrom] at he
  | cons l ls ih =>
    intro n e he
    unfold entriesFrom at he
    split at he
    · exact Nat.le_of_succ_le (ih (n + 1) e he)
    · split at he
      · rcases List.mem_cons.mp he with rfl | hmem
        · exact Nat.le_refl n
        · exact Nat.le_of_succ_le (ih (n + 1) e hmem)
      · exact Nat.le_of_succ_le (ih (n + 1) e he)

theorem entriesFrom_pairwise (ls : List (List Char)) :
    ∀ n, (entriesFrom n ls).Pairwise (fun a b => a.1 < b.1) := by
  induction ls with
  | nil => intro n; simp [entriesFrom]
  | cons l ls ih =>
    intro n
    unfold entriesFrom
    split
    · exact ih (n + 1)
    · split
      · exact List.Pairwise.cons
          (fun e he => Nat.lt_of_succ_le (entriesFrom_lineNo ls (n + 1) e he))
          (ih (n + 1))
      · exact ih (n + 1)

/-- The report with unchecked descriptions truncated to 120 characters, as
the display does. -/
def truncEntries (r : DocumentReport) : DocumentReport :=
  { r with unchecked := r.unchecked.map fun e => (e.1, e.2.take 120) }

/-- C9: unchecked entries appear in encounter order, which is ascending
line-number order; every displayed preview text is truncated to at most
120 characters; and the truncation changes none of the total, done,
in-progress or unchecked counts. -/
theorem c9_order_and_truncation :
    (∀ lines, ((scanDoc lines).unchecked.map Prod.fst).Pairwise (· < ·)) ∧
    (∀ path r ln txt, OutLine.preview ln txt ∈ renderReport path r →
        txt.length ≤ 120) ∧
    (∀ r : DocumentReport, (truncEntries r).total = r.total ∧
      (truncEntries r).done = r.done ∧ (truncEntries r).impl = r.impl ∧
      (truncEntries r).unchecked.length = r.unchecked.length) := by
  refine ⟨fun lines => ?_, fun path r ln txt h => ?_,
    fun r => ⟨rfl, rfl, rfl, by simp [truncEntries]⟩⟩
  · rw [List.pairwise_map]
    show ((scanFrom 1 ⟨0, 0, 0, []⟩ lines).unchecked).Pairwise
      fun a b => a.1 < b.1
    rw [scanFrom_unchecked lines 1, List.nil_append]
    exact entriesFrom_pairwise lines 1
  · unfold renderReport at h
    split at h
    · simp at h
    · simp only [List.mem_append, List.mem_singleton, List.mem_map] at h
      rcases h with (h | ⟨e, -, he⟩) | h
      · exact absurd h (by simp)
      · obtain ⟨-, h2⟩ : e.1 = ln ∧ List.take 120 e.2 = txt := by
          injection he with h1 h2
          exact ⟨h1, h2⟩
        rw [← h2]
        exact List.length_take_le 120 e.2
      · split at h <;> simp at h

/-- Concrete instance of `c9_order_and_truncation` part 2: the preview of
a one-entry report is at most 120 characters long. -/
theorem c9_order_and_truncation_witness : (['b'] : List Char).length ≤ 120 :=
  c9_order_and_truncation.2.1 [] ⟨1, 0, 0, [(2, ['b'])]⟩ 2 ['b'] (by decide)

/-! ### C10 -/

theorem entriesFrom_src (ls : List (List Char)) :
    ∀ n e, e ∈ entriesFrom n ls →
      ∃ line s txt, line ∈ ls ∧ pat_match line = some (s, txt) ∧
        classify s = .unchecked ∧ e.2 = stripChars txt := by
  induction ls with
  | nil => intro n e he; simp [entriesFrom] at he
  | cons l ls ih =>
    intro n e he
    unfold entriesFrom at he
    split at he
    · obtain ⟨line, s, txt, h1, h2, h3, h4⟩ := ih (n + 1) e he
      exact ⟨line, s, txt, List.mem_cons_of_mem _ h1, h2, h3, h4⟩
    · rename_i s txt hm
      split at he
      · rename_i hc
        rcases List.mem_cons.mp he with rfl | hmem
        · exact ⟨l, s, txt, List.mem_cons_self .., hm, hc, rfl⟩
        · obtain ⟨line, s', txt', h1, h2, h3, h4⟩ := ih (n + 1) e hmem
          exact ⟨line, s', txt', List.mem_cons_of_mem _ h1, h2, h3, h4⟩
      · obtain ⟨line, s', txt', h1, h2, h3, h4⟩ := ih (n + 1) e he
        exact ⟨line, s', txt', List.mem_cons_of_mem _ h1, h2, h3, h4⟩

/-- C10: every stored unchecked description is `m.group(2).strip()`: the
trailing text of its source line with leading and trailing whitespace
stripped (before any display truncation); in particular the line
`- [ ]   b   ` stores the description `b`, not `  b   `. -/
theorem c10_description_stripped :
    (∀ lines e, e ∈ (scanDoc lines).unchecked →
      ∃ line s txt, line ∈ lines ∧ pat_match line = some (s, txt) ∧
        classify s = .unchecked ∧ e.2 = stripChars txt) ∧
    (scanDoc ["- [ ]   b   ".data]).unchecked = [(1, "b".data)] := by
  constructor
  · intro lines e he
    rw [scanDoc, scanFrom_unchecked lines 1, List.nil_append] at he
    exact entriesFrom_src lines 1 e he
  · decide

/-- Concrete instance of `c10_description_stripped` at `- [ ]   b   `. -/
theorem c10_description_stripped_witness :
    ∃ line s txt, line ∈ ["- [ ]   b   ".data] ∧
      pat_match line = some (s, txt) ∧ classify s = .unchecked ∧
      ("b".data : List Char) = stripChars txt :=
  c10_description_stripped.1 ["- [ ]   b   ".data] (1, "b".data) (by decide)

/-! ### C4 -/

theorem lexLe_cons_iff (a b : Char) (as bs : List Char) :
    lexLe (a :: as) (b :: bs) = true ↔
      a.toNat < b.toNat ∨ (a.toNat = b.toNat ∧ lexLe as bs = true) := by
  simp only [lexLe]
  by_cases h1 : a.toNat < b.toNat
  · simp [h1]
  · by_cases h2 : b.toNat < a.toNat
    · rw [if_neg h1, if_pos h2]
      constructor
      · intro h; exact absurd h (by simp)
      · intro h; rcases h with h | ⟨h, -⟩ <;> omega
    · have he : a.toNat = b.toNat := by omega
      rw [if_neg h1, if_neg h2]
      simp [he, h1]

theorem lexLe_total : ∀ a b : List Char, lexLe a b = true ∨ lexLe b a = true
  | [], _ => Or.inl rfl
  | _ :: _, [] => Or.inr rfl
  | a :: as, b :: bs => by
    rcases Nat.lt_trichotomy a.toNat b.toNat with h | h | h
    · exact Or.inl ((lexLe_cons_iff ..).mpr (Or.inl h))
    · rcases lexLe_total as bs with ih | ih
      · exact Or.inl ((lexLe_cons_iff ..).mpr (Or.inr ⟨h, ih⟩))
      · exact Or.inr ((lexLe_cons_iff ..).mpr (Or.inr ⟨h.symm, ih⟩))
    · exact Or.inr ((lexLe_cons_iff ..).mpr (Or.inl h))

theorem lexLe_trans : ∀ a b c : List Char,
    lexLe a b = true → lexLe b c = true → lexLe a c = true
  | [], _, _, _, _ => rfl
  | _ :: _, [], _, h, _ => by exact absurd h (by simp [lexLe])
  | _ :: _, _ :: _, [], _, h => by exact absurd h (by simp [lexLe])
  | a :: as, b :: bs, c :: cs, h1, h2 => by
    rw [lexLe_cons_iff] at h1 h2 ⊢
    rcases h1 with h1 | ⟨h1e, h1r⟩
    · rcases h2 with h2 | ⟨h2e, -⟩ <;> exact Or.inl (by omega)
    · rcases h2 with h2 | ⟨h2e, h2r⟩
      · exact Or.inl (by omega)
      · exact Or.inr ⟨by omega, lexLe_trans as bs cs h1r h2r⟩

theorem discover_mem (fs : List FsEntry) (e : FsEntry) :
    e ∈ discover fs ↔
      e ∈ fs ∧ e.isFile = true ∧ endsMd e.name = true ∧ notReadme e = true := by
  rw [discover, List.mem_mergeSort, List.mem_filter]
  simp [and_assoc]

theorem discover_sorted (fs : List FsEntry) :
    (discover fs).Pairwise fun a b => lexLe (asPosix a) (asPosix b) = true := by
  unfold discover
  exact @List.sorted_mergeSort FsEntry
    (fun a b => lexLe (asPosix a) (asPosix b))
    (fun a b c hab hbc => lexLe_trans _ _ _ hab hbc)
    (fun a b => by
      rcases lexLe_total (asPosix a) (asPosix b) with h | h <;> simp [h])
    (fs.filter fun e => e.isFile && endsMd e.name && notReadme e)

theorem discover_strict (fs : List FsEntry)
    (hinj : fs.Pairwise fun a b => asPosix a ≠ asPosix b) :
    (discover fs).Pairwise fun a b =>
      lexLe (asPosix a) (asPosix b) = true ∧ asPosix a ≠ asPosix b := by
  refine (discover_sorted fs).and ?_
  have h1 : (fs.filter fun e => e.isFile && endsMd e.name && notReadme e).Pairwise
      (fun a b => asPosix a ≠ asPosix b) :=
    hinj.sublist (List.filter_sublist fs)
  exact ((List.mergeSort_perm _ _).pairwise_iff fun h => h.symm).mpr h1

/-- C4: discovery returns exactly the regular filesystem entries whose
name ends in `.md` and is not `readme.md` case-insensitively (regardless
of their content, so a `README.md` full of checkboxes is excluded), and
the result is sorted by posix path; when all input paths are distinct the
order is strictly increasing. -/
theorem c4_discovery (fs : List FsEntry) :
    (∀ e, e ∈ discover fs ↔
        e ∈ fs ∧ e.isFile = true ∧ endsMd e.name = true ∧ notReadme e = true) ∧
    ((discover fs).Pairwise fun a b => lexLe (asPosix a) (asPosix b) = true) ∧
    (fs.Pairwise (fun a b => asPosix a ≠ asPosix b) →
      (discover fs).Pairwise fun a b =>
        lexLe (asPosix a) (asPosix b) = true ∧ asPosix a ≠ asPosix b) :=
  ⟨discover_mem fs, discover_sorted fs, discover_strict fs⟩

/-- A regular markdown file named `a.md` directly under the root. -/
def fsA : FsEntry := ⟨[['a', '.', 'm', 'd']], true, []⟩

/-- A regular markdown file named `b.md` in a subdirectory. -/
def fsB : FsEntry := ⟨[['s', 'u', 'b'], ['b', '.', 'm', 'd']], true, []⟩

/-- A `README.md` that contains checkbox syntax. -/
def fsR : FsEntry :=
  ⟨[['R', 'E', 'A', 'D', 'M', 'E', '.', 'm', 'd']], true,
   [['-', ' ', '[', 'x', ']', ' ', 'a']]⟩

/-- Concrete instance of `c4_discovery` on a three-entry listing with
distinct paths (including a `README.md` with checkbox content). -/
theorem c4_discovery_witness :
    (discover [fsB, fsR, fsA]).Pairwise fun a b =>
      lexLe (asPosix a) (asPosix b) = true ∧ asPosix a ≠ asPosix b :=
  (c4_discovery [fsB, fsR, fsA]).2.2 (by decide)

/-! ### C8 -/

/-- C8: the exit status is 0 on every run; a run whose discovery yields
no documents (in particular a missing or empty root, modelled by the
empty listing) produces no output lines. -/
theorem c8_exit_and_empty (fs : List FsEntry) :
    (runMain fs).2 = 0 ∧
    (discover fs = [] → (runMain fs).1 = []) ∧
    discover ([] : List FsEntry) = [] ∧ (runMain []).1 = [] := by
  have hnil : discover ([] : List FsEntry) = [] := by
    rw [discover]
    simp
  refine ⟨rfl, fun h => ?_, hnil, by simp [runMain, hnil]⟩
  simp [runMain, h]

/-- Concrete instance of `c8_exit_and_empty`: a listing holding only a
`README.md` is discovered as empty, produces no output and exits 0. -/
theorem c8_exit_and_empty_witness :
    (runMain [fsR]).1 = [] ∧ (runMain [fsR]).2 = 0 := by
  have hf : (([fsR] : List FsEntry).filter
      fun e => e.isFile && endsMd e.name && notReadme e) = [] := by decide
  have hd : discover [fsR] = [] := by rw [discover, hf]; simp
  exact ⟨(c8_exit_and_empty [fsR]).2.1 hd, (c8_exit_and_empty [fsR]).1⟩
